import Mathlib

/-!
Shallow embedding of `src/sage/rings/tate_algebra.py`: the Tate-algebra
parent structures (`TateAlgebra_generic`, `TateTermMonoid`), the factory key
builder (`TateAlgebraFactory.create_key` / `create_object`), the coercion
tests (`_coerce_map_from_`), the pushout rule (`_pushout_`) and generator
access (`gen`).  The underlying p-adic base rings are an opaque external
collaborator in the spec, so they are modelled by an abstract type `B`
together with a record `PadicOps` of the operations the source calls on
them (`has_coerce_map_from`, `absolute_e`, `fraction_field`,
`integer_ring`, `is_field`, `precision_cap`, `pushout`).
-/

set_option maxRecDepth 4000

namespace Tate

/-- Modelled from the spec: a term order is an externally supplied object
(`sage.rings.polynomial.term_order.TermOrder`, not under `src/`), resolved
against the number of variables and consumed opaquely; only its (decidable)
equality matters here. -/
structure TermOrderT where
  name : String
  ngens : Nat
deriving DecidableEq

/-- The parent class `TateAlgebra_generic` (source lines 404-437): it stores
the base field, the precision cap, the log radii, the variable names, the
term order and the integrality flag. -/
structure TateAlgebra_generic (B : Type) where
  field : B
  cap : Int
  log_radii : List Int
  names : List String
  order : TermOrderT
  integral : Bool
deriving DecidableEq

/-- `TateTermMonoid` (source lines 142-187): its base ring, names, log radii
and term order are all copied from the parent algebra at construction, so the
monoid is determined by its parent algebra. -/
structure TateTermMonoid (B : Type) where
  parent_algebra : TateAlgebra_generic B
deriving DecidableEq

/-- An argument to a coercion test: a scalar p-adic ring, a full Tate
algebra parent, or a term monoid (the runtime `isinstance` dispatch of the
source, lines 275-278 and 521). -/
inductive CoerceArg (B : Type) where
  | ring (R : B)
  | algebra (R : TateAlgebra_generic B)
  | monoid (R : TateTermMonoid B)
deriving DecidableEq

/-- The owning algebra of a structural coercion argument: the algebra itself,
or the parent algebra of a term monoid. -/
def CoerceArg.ownerAlgebra {B : Type} : CoerceArg B → Option (TateAlgebra_generic B)
  | .ring _ => none
  | .algebra S => some S
  | .monoid M => some M.parent_algebra

/-- Modelled from the spec: the operations the source calls on the opaque
p-adic base rings (spec sections 3 and 6: fraction field, integer subring,
absolute ramification index, precision cap, field test, coercion predicate
and base-ring pushout).  `coercesParent` models the external call
`base.has_coerce_map_from(R)` when `R` is a Tate parent object (an algebra,
or the term monoid it owns) rather than a scalar ring. -/
structure PadicOps (B : Type) where
  coerces : B → B → Bool
  coercesParent : B → TateAlgebra_generic B → Bool
  absE : B → Nat
  fractionField : B → B
  integerRing : B → B
  isField : B → Bool
  precCap : B → Int
  push : B → B → B

namespace TateAlgebra_generic

variable {B : Type}

/-- The stored `self._base` (source lines 423-426): the integer ring of the
base field for the integral view, the base field itself otherwise. -/
def base (A : TateAlgebra_generic B) (ops : PadicOps B) : B :=
  if A.integral then ops.integerRing A.field else A.field

/-- `ngens` (source line 420): the number of variables. -/
def ngens (A : TateAlgebra_generic B) : Nat := A.names.length

/-- `integer_ring` (source lines 432-437 and 722-741): the integral twin has
the same field, cap, radii, names and order, with the integral flag set;
an integral algebra is its own integer ring. -/
def integer_ring (A : TateAlgebra_generic B) : TateAlgebra_generic B :=
  { A with integral := true }

/-- The structural branch of `TateAlgebra_generic._coerce_map_from_`
(source lines 521-532) for an argument whose owning algebra is `S`: the base
rings must coerce, the names and the order must match, and every log radius
of `A` must equal `ratio` times the corresponding log radius of `S`, where
`ratio` is the floor quotient of the absolute ramification indices. -/
def parent_check (ops : PadicOps B) (A S : TateAlgebra_generic B) : Bool :=
  (ops.coerces (A.base ops) (S.base ops) && decide (A.names = S.names)
      && decide (A.order = S.order))
    &&
  (List.range A.ngens).all (fun i =>
    decide (A.log_radii.getD i 0 =
      ((ops.absE (A.base ops) / ops.absE (S.base ops) : Nat) : Int) * S.log_radii.getD i 0))

/-- `TateAlgebra_generic._coerce_map_from_` (source lines 452-533): a ring
argument is accepted iff the base ring accepts it; an algebra or monoid
argument is accepted if the base ring accepts the parent object directly
(external machinery) or the structural check succeeds. -/
def coerce_map_from (A : TateAlgebra_generic B) (ops : PadicOps B) (R : CoerceArg B) : Bool :=
  match R with
  | .ring S => ops.coerces (A.base ops) S
  | .algebra S => ops.coercesParent (A.base ops) S || parent_check ops A S
  | .monoid M => ops.coercesParent (A.base ops) M.parent_algebra
      || parent_check ops A M.parent_algebra

end TateAlgebra_generic

namespace TateTermMonoid

variable {B : Type}

/-- `TateTermMonoid.base_ring` (source lines 181 and 297-328): the monoid
stores `A.base_ring()` of its parent algebra. -/
def base_ring (M : TateTermMonoid B) (ops : PadicOps B) : B :=
  M.parent_algebra.base ops

/-- `TateTermMonoid._coerce_map_from_` (source lines 208-278): a ring is
accepted iff the monoid's base ring accepts it; a term monoid is accepted if
the base accepts it directly or the parent algebra accepts the other
monoid's `algebra_of_series()`; a full Tate algebra falls through both
`isinstance` checks, so only the direct base-ring branch can apply (the
`TateAlgebraElement` branch belongs to the element layer, which the spec
excludes from this component). -/
def coerce_map_from (M : TateTermMonoid B) (ops : PadicOps B) (R : CoerceArg B) : Bool :=
  match R with
  | .ring S => ops.coerces (M.base_ring ops) S
  | .monoid N => ops.coercesParent (M.base_ring ops) N.parent_algebra
      || M.parent_algebra.coerce_map_from ops (.algebra N.parent_algebra)
  | .algebra S => ops.coercesParent (M.base_ring ops) S

end TateTermMonoid

/-- Errors raised by the factory key builder: `TypeError` and `ValueError`
(source lines 112-123). -/
inductive KeyErr where
  | typeErr (msg : String)
  | valueErr (msg : String)
deriving DecidableEq

/-- The radii argument of the factory (source lines 120-125): either a
single scalar, or a list/tuple of entries.  Entries are arbitrary rationals
so that the `ZZ(...)` integer coercion the source applies to them is
meaningful. -/
inductive RadiiArg where
  | scalar (r : ℚ)
  | seq (rs : List ℚ)
deriving DecidableEq

/-- The order argument of the factory (source line 126): either an order
name resolved against the number of variables, or an already resolved term
order object (as passed by `_pushout_`, source line 579). -/
inductive OrderArg where
  | name (s : String)
  | obj (o : TermOrderT)
deriving DecidableEq

/-- The canonical 5-tuple key (source line 129). -/
structure Key (B : Type) where
  base : B
  prec : Int
  log_radii : List Int
  names : List String
  order : TermOrderT
deriving DecidableEq

/-- Modelled from the spec: the coercion `ZZ(r)` of a radius entry to an
integer (sage's `ZZ` is not under `src/`; the spec says "All entries coerced
to integers").  It succeeds exactly on integral values and raises a
`TypeError` otherwise. -/
def ZZ (q : ℚ) : Except KeyErr Int :=
  if q.den = 1 then .ok q.num else .error (.typeErr "unable to convert to an integer")

/-- The elementwise integer coercion `[ZZ(r) for r in log_radii]`
(source line 125), propagating the first failure. -/
def ZZlist : List ℚ → Except KeyErr (List Int)
  | [] => .ok []
  | q :: qs =>
    match ZZ q with
    | .error e => .error e
    | .ok z =>
      match ZZlist qs with
      | .error e => .error e
      | .ok zs => .ok (z :: zs)

/-- Modelled from the spec: `normalize_names`
(`sage.structure.category_object.normalize_names`, not under `src/`)
normalizes the names to a tuple of unique symbol strings; on an
already-normalized tuple of names, as supplied here, it is the identity. -/
def normalize_names (names : List String) : List String := names

/-- Modelled from the spec: `TermOrder(order, ngens)` (source line 126)
resolves an order name against the number of variables and returns an
already-built term order object unchanged. -/
def resolveOrder : OrderArg → Nat → TermOrderT
  | .name s, n => ⟨s, n⟩
  | .obj o, _ => o

/-- `TateAlgebraFactory.create_key` (source lines 111-130): replace the base
by its fraction field, require names, broadcast a scalar radius over all
variables or check the length of a radius list and coerce its entries to
integers, resolve the order, and default the precision to the base field's
precision cap. -/
def create_key {B : Type} (ops : PadicOps B) (base0 : B) (prec : Option Int)
    (log_radii : RadiiArg) (names0 : Option (List String)) (order : OrderArg) :
    Except KeyErr (Key B) :=
  let base := ops.fractionField base0
  match names0 with
  | none => .error (.valueErr "You must specify the names of the variables")
  | some ns =>
    let names := normalize_names ns
    let ngens := names.length
    let radiiE : Except KeyErr (List Int) :=
      match log_radii with
      | .scalar r =>
        match ZZ r with
        | .error e => .error e
        | .ok z => .ok (List.replicate ngens z)
      | .seq rs =>
        if rs.length ≠ ngens then
          .error (.valueErr "The number of radii does not match the number of variables")
        else ZZlist rs
    match radiiE with
    | .error e => .error e
    | .ok radii =>
      .ok ⟨base, (match prec with | none => ops.precCap base | some p => p), radii,
        names, resolveOrder order ngens⟩

/-- `TateAlgebraFactory.create_object` (source lines 132-134): build the
(non-integral) algebra from the key. -/
def create_object {B : Type} (key : Key B) : TateAlgebra_generic B :=
  ⟨key.base, key.prec, key.log_radii, key.names, key.order, false⟩

/-- The process-wide interning registry of the factory, keyed by the
canonical key. -/
abbrev Registry (B : Type) := List (Key B × TateAlgebra_generic B)

/-- Lookup of a key in the registry. -/
def regLookup {B : Type} [DecidableEq B] :
    Registry B → Key B → Option (TateAlgebra_generic B)
  | [], _ => none
  | (k, A) :: rest, key => if k = key then some A else regLookup rest key

/-- Modelled from the spec: the lookup-or-insert interning performed by
`sage.structure.factory.UniqueFactory` (not under `src/`): build the
canonical key with `create_key`; if the registry already holds the key,
return the stored instance and leave the registry unchanged, otherwise
build the structure with `create_object` and intern it. -/
def factoryCall {B : Type} [DecidableEq B] (ops : PadicOps B) (reg : Registry B)
    (base0 : B) (prec : Option Int) (log_radii : RadiiArg)
    (names0 : Option (List String)) (order : OrderArg) :
    Except KeyErr (TateAlgebra_generic B × Registry B) :=
  match create_key ops base0 prec log_radii names0 order with
  | .error e => .error e
  | .ok key =>
    match regLookup reg key with
    | some A => .ok (A, reg)
    | none => .ok (create_object key, (key, create_object key) :: reg)

namespace TateAlgebra_generic

variable {B : Type}

/-- Argument to `_pushout_`: a p-adic ring or field, another Tate algebra,
or anything else (source line 574 dispatches on `isinstance(R, pAdicGeneric)`). -/
inductive PushArg (B : Type) where
  | padic (R : B)
  | tateAlgebra (R : TateAlgebra_generic B)
  | other
deriving DecidableEq

/-- `TateAlgebra_generic._pushout_` (source lines 535-583): defined only for
a p-adic ring or field `R`; compute the base-ring pushout of `self._base`
with `R`, scale the precision cap and the log radii by the ramification
ratio, build the algebra through the factory (whose key builder replaces the
base by its fraction field), and return it directly when the pushed-out base
is a field, its integer ring otherwise.  A non p-adic argument falls off the
end of the method, i.e. yields no pushout. -/
def pushout_ (A : TateAlgebra_generic B) (ops : PadicOps B) (R : PushArg B) :
    Except KeyErr (Option (TateAlgebra_generic B)) :=
  match R with
  | .padic R =>
    let base := ops.push (A.base ops) R
    let ratio : Int := ((ops.absE base / ops.absE (A.base ops) : Nat) : Int)
    let cap := ratio * A.cap
    let log_radii := A.log_radii.map (fun r => ratio * r)
    match create_key ops base (some cap) (.seq (log_radii.map (fun r : Int => (r : ℚ))))
        (some A.names) (.obj A.order) with
    | .error e => .error e
    | .ok key =>
      if ops.isField base = true then .ok (some (create_object key))
      else .ok (some (create_object key).integer_ring)
  | _ => .ok none

/-- The base ring `pushout(self._base, R)` computed by `_pushout_`
(source line 575). -/
def pushBase (A : TateAlgebra_generic B) (ops : PadicOps B) (R : B) : B :=
  ops.push (A.base ops) R

/-- The ramification ratio `base.absolute_e() // self._base.absolute_e()`
computed by `_pushout_` (source line 576). -/
def pushRatio (A : TateAlgebra_generic B) (ops : PadicOps B) (R : B) : Int :=
  ((ops.absE (A.pushBase ops R) / ops.absE (A.base ops) : Nat) : Int)

/-- The full (non-integral) algebra built by `_pushout_` through the
factory: over the fraction field of the pushed-out base, with the scaled
precision cap and log radii and the same names and order. -/
def pushFull (A : TateAlgebra_generic B) (ops : PadicOps B) (R : B) :
    TateAlgebra_generic B :=
  ⟨ops.fractionField (A.pushBase ops R), A.pushRatio ops R * A.cap,
    A.log_radii.map (fun r => A.pushRatio ops R * r), A.names, A.order, false⟩

/-- The structure returned by `_pushout_` on a p-adic argument: the fresh
full algebra when the pushed-out base is a field, its integral twin
otherwise (source lines 580-583). -/
def pushResult (A : TateAlgebra_generic B) (ops : PadicOps B) (R : B) :
    TateAlgebra_generic B :=
  if ops.isField (A.pushBase ops R) = true then A.pushFull ops R
  else (A.pushFull ops R).integer_ring

/-- The i-th generator (source lines 432-436): the i-th polynomial variable,
shifted by the uniformizer to the power `ceil(log_radii[i])` in the integral
view and unshifted in the full algebra.  The generator is represented by its
variable index and that shift. -/
structure TateGen where
  varIndex : Nat
  shift : Int
deriving DecidableEq

/-- Build the i-th generator of `A` (source lines 432-436; the radii are
integers, so `ceil` is the identity). -/
def mkGen (A : TateAlgebra_generic B) (i : Nat) : TateGen :=
  ⟨i, if A.integral then A.log_radii.getD i 0 else 0⟩

/-- The stored generator list `self._gens`, one generator per variable. -/
def gensList (A : TateAlgebra_generic B) : List TateGen :=
  (List.range A.ngens).map (mkGen A)

/-- Python list indexing semantics, as used by `self._gens[n]`
(source line 633): non-negative indices count from the front, negative
indices count from the back, anything else is an `IndexError` (`none`). -/
def pyGet {α : Type} (xs : List α) (n : Int) : Option α :=
  if 0 ≤ n then xs.get? n.toNat
  else if 0 ≤ (xs.length : Int) + n then xs.get? ((xs.length : Int) + n).toNat
  else none

/-- `TateAlgebra_generic.gen` (source lines 607-635): index into the
generator list, turning an `IndexError` into
`ValueError("generator not defined")`. -/
def gen (A : TateAlgebra_generic B) (n : Int) : Except String TateGen :=
  match pyGet A.gensList n with
  | some g => .ok g
  | none => .error "generator not defined"

end TateAlgebra_generic

/-- Projection used to observe the integrality flag of a pushout result. -/
def pushIntegralFlag {B : Type} :
    Except KeyErr (Option (TateAlgebra_generic B)) → Option Bool
  | .ok (some P) => some P.integral
  | _ => none

/-- Projection used to observe the radii stored in a built key. -/
def keyRadii {B : Type} : Except KeyErr (Key B) → Option (List Int)
  | .ok k => some k.log_radii
  | .error _ => none

/-- A concrete model of the opaque p-adic base rings, used to instantiate
the theorems: a base ring is described by its absolute ramification index
and a field flag. -/
structure DemoBase where
  e : Nat
  isF : Bool
deriving DecidableEq

/-- Concrete operations on `DemoBase`: coercion goes from smaller to larger
ramification, the fraction field and integer ring toggle the field flag, and
the pushout takes the lcm of the ramification indices. -/
def demoOps : PadicOps DemoBase where
  coerces := fun b r => (b.e % r.e == 0) && (!r.isF || b.isF)
  coercesParent := fun _ _ => false
  absE := fun b => b.e
  fractionField := fun b => ⟨b.e, true⟩
  integerRing := fun b => ⟨b.e, false⟩
  isField := fun b => b.isF
  precCap := fun _ => 20
  push := fun a b => ⟨Nat.lcm a.e b.e, a.isF || b.isF⟩

/-- A concrete 2-variable full Tate algebra over the base with `e = 1`. -/
def A7 : TateAlgebra_generic DemoBase :=
  ⟨⟨1, true⟩, 10, [1, 2], ["x", "y"], ⟨"degrevlex", 2⟩, false⟩

/-- The term monoid of `A7`. -/
def M7 : TateTermMonoid DemoBase := ⟨A7⟩

/-- A concrete 2-variable full Tate algebra over the base with `e = 2`,
whose radii are twice those of `A7`. -/
def A1w : TateAlgebra_generic DemoBase :=
  ⟨⟨2, true⟩, 10, [2, 4], ["x", "y"], ⟨"degrevlex", 2⟩, false⟩

/-- A concrete integral-subring view (one variable, over the base with
`e = 1`). -/
def A3 : TateAlgebra_generic DemoBase :=
  ⟨⟨1, true⟩, 10, [0], ["x"], ⟨"degrevlex", 1⟩, true⟩

/-- A concrete ramified p-adic field with `e = 2`. -/
def R3 : DemoBase := ⟨2, true⟩

/-- The canonical key produced by `create_key` on the demo base with one
variable, scalar radius `0` and default precision. -/
def kD : Key DemoBase := ⟨⟨1, true⟩, 20, [0], ["x"], ⟨"degrevlex", 1⟩⟩

/-- The algebra interned for the key `kD`. -/
def AD : TateAlgebra_generic DemoBase := create_object kD

/-- Integer coercion of an integer cast: `ZZ` recovers the integer. -/
theorem ZZ_intCast (r : Int) : ZZ ((r : ℚ)) = .ok r := by
  unfold ZZ
  rw [Rat.den_intCast, Rat.num_intCast]
  simp

/-- Every rational in the list integral: `ZZlist` succeeds and returns the
numerators. -/
theorem ZZlist_ok_of_den_one :
    ∀ (l : List ℚ), (∀ q ∈ l, q.den = 1) → ZZlist l = .ok (l.map Rat.num)
  | [], _ => rfl
  | q :: qs, h => by
    have hq : q.den = 1 := h q (List.mem_cons_self q qs)
    have ih := ZZlist_ok_of_den_one qs (fun p hp => h p (List.mem_cons_of_mem q hp))
    simp only [ZZlist, ZZ, hq, if_pos, List.map_cons]
    rw [ih]

/-- `ZZlist` is a retraction of the integer-cast embedding. -/
theorem ZZlist_intCast (l : List Int) :
    ZZlist (l.map (fun r : Int => (r : ℚ))) = .ok l := by
  induction l with
  | nil => rfl
  | cons r rs ih =>
    simp only [List.map_cons, ZZlist, ZZ_intCast]
    rw [ih]

/-- Evaluation of `create_key` on an integer radius list of the right
length, an explicit precision and an already-resolved order. -/
theorem create_key_seq_int {B : Type} (ops : PadicOps B) (base0 : B) (p : Int)
    (l : List Int) (names : List String) (o : TermOrderT)
    (h : l.length = names.length) :
    create_key ops base0 (some p) (.seq (l.map (fun r : Int => (r : ℚ)))) (some names) (.obj o) =
      .ok ⟨ops.fractionField base0, p, l, names, o⟩ := by
  have hne : ¬((l.map (fun r : Int => (r : ℚ))).length ≠ names.length) := by
    rw [List.length_map, h]
    exact fun hc => hc rfl
  simp only [create_key, normalize_names, resolveOrder]
  rw [if_neg hne, ZZlist_intCast]

/-- Evaluation of `_pushout_` on a p-adic argument: it returns
`pushResult`. -/
theorem pushout_padic_eq {B : Type} (ops : PadicOps B) (A : TateAlgebra_generic B)
    (R : B) (hA : A.log_radii.length = A.names.length) :
    A.pushout_ ops (.padic R) = .ok (some (A.pushResult ops R)) := by
  have hlen : (A.log_radii.map (fun r => A.pushRatio ops R * r)).length = A.names.length := by
    rw [List.length_map, hA]
  have hk := create_key_seq_int ops (A.pushBase ops R) (A.pushRatio ops R * A.cap)
    (A.log_radii.map (fun r => A.pushRatio ops R * r)) A.names A.order hlen
  simp only [TateAlgebra_generic.pushBase, TateAlgebra_generic.pushRatio] at hk
  simp only [TateAlgebra_generic.pushout_]
  rw [hk]
  simp only [TateAlgebra_generic.pushResult, TateAlgebra_generic.pushFull,
    TateAlgebra_generic.pushBase, TateAlgebra_generic.pushRatio,
    TateAlgebra_generic.integer_ring, create_object]
  by_cases hb : ops.isField (ops.push (A.base ops) R) = true
  · rw [if_pos hb, if_pos hb]
  · rw [if_neg hb, if_neg hb]

/-- Indexing into the generator list. -/
theorem gensList_get {B : Type} (A : TateAlgebra_generic B) (k : Nat) :
    (A.gensList).get? k = if k < A.names.length then some (A.mkGen k) else none := by
  rw [TateAlgebra_generic.gensList, List.get?_map, TateAlgebra_generic.ngens]
  by_cases hk : k < A.names.length
  · rw [if_pos hk, List.get?_range hk]
    rfl
  · rw [if_neg hk]
    have hn : (List.range A.names.length).get? k = none := by
      rw [List.get?_eq_none, List.length_range]
      exact Nat.le_of_not_lt hk
    rw [hn]
    rfl

/-- Case analysis of `gen` over Python's indexing semantics: an index in
`[0, n)` selects from the front, an index in `[-n, 0)` selects from the
back, and anything else raises the "generator not defined" error. -/
theorem gen_cases {B : Type} (A : TateAlgebra_generic B) (i : Int) :
    A.gen i =
      if 0 ≤ i ∧ i < (A.names.length : Int) then .ok (A.mkGen i.toNat)
      else if -(A.names.length : Int) ≤ i ∧ i < 0 then
        .ok (A.mkGen ((A.names.length : Int) + i).toNat)
      else .error "generator not defined" := by
  have hlen : (A.gensList).length = A.names.length := by
    rw [TateAlgebra_generic.gensList, List.length_map, List.length_range,
      TateAlgebra_generic.ngens]
  rw [TateAlgebra_generic.gen, TateAlgebra_generic.pyGet, hlen]
  by_cases h0 : 0 ≤ i
  · rw [if_pos h0, gensList_get]
    by_cases hi : i < (A.names.length : Int)
    · rw [if_pos (by omega), if_pos ⟨h0, hi⟩]
    · rw [if_neg (by omega), if_neg (by omega), if_neg (by omega)]
  · rw [if_neg h0]
    by_cases hm : 0 ≤ (A.names.length : Int) + i
    · rw [if_pos hm, gensList_get, if_pos (by omega), if_neg (by omega),
        if_pos (by omega)]
    · rw [if_neg hm, if_neg (by omega), if_neg (by omega)]

/-- C1: a Tate algebra `A` accepts a coercion from a Tate algebra or a term
monoid with owning algebra `S` exactly when `S`'s base ring coerces into
`A`'s base ring, the variable-name tuples are equal element-for-element in
the same order, the term orders are equal, and every log radius of `A` is
`ratio` times the corresponding log radius of `S`, where `ratio` is the
floor quotient of the absolute ramification indices of `A`'s base by `S`'s
base; any violated index or differing names make the test return false. -/
theorem coerce_ratio_iff {B : Type} (ops : PadicOps B) (A S : TateAlgebra_generic B)
    (R : CoerceArg B) (hown : R.ownerAlgebra = some S)
    (hcp : ops.coercesParent (A.base ops) S = false)
    (hA : A.log_radii.length = A.names.length)
    (hS : S.log_radii.length = S.names.length) :
    A.coerce_map_from ops R = true ↔
      (ops.coerces (A.base ops) (S.base ops) = true ∧ A.names = S.names ∧
        A.order = S.order ∧
        ∀ i < A.names.length,
          A.log_radii.getD i 0 =
            ((ops.absE (A.base ops) / ops.absE (S.base ops) : Nat) : Int) *
              S.log_radii.getD i 0) := by
  cases R with
  | ring S0 => simp [CoerceArg.ownerAlgebra] at hown
  | algebra S0 =>
    obtain rfl : S0 = S := by simpa [CoerceArg.ownerAlgebra] using hown
    simp only [TateAlgebra_generic.coerce_map_from, hcp, Bool.false_or,
      TateAlgebra_generic.parent_check, TateAlgebra_generic.ngens,
      Bool.and_eq_true, List.all_eq_true, List.mem_range, decide_eq_true_eq,
      and_assoc]
  | monoid M =>
    obtain rfl : M.parent_algebra = S := by simpa [CoerceArg.ownerAlgebra] using hown
    simp only [TateAlgebra_generic.coerce_map_from, hcp, Bool.false_or,
      TateAlgebra_generic.parent_check, TateAlgebra_generic.ngens,
      Bool.and_eq_true, List.all_eq_true, List.mem_range, decide_eq_true_eq,
      and_assoc]

/-- C1 witness: the algebra over the base with ramification index 2 and
radii `[2, 4]` accepts a coercion from the algebra over the base with
ramification index 1 and radii `[1, 2]`. -/
theorem coerce_ratio_iff_witness :
    A1w.coerce_map_from demoOps (.algebra A7) = true :=
  (coerce_ratio_iff demoOps A1w A7 (.algebra A7) rfl rfl rfl rfl).mpr
    ⟨by decide, rfl, rfl, by decide⟩

/-- C2: the pushout of a Tate algebra `A` with a p-adic ring or field `R`
is the Tate algebra with the same names and order over
`new_base = pushout(A.base, R)`, with precision cap `e * p` and log radii
`e * r_i`, where `e` is the floor quotient of the absolute ramification
index of `new_base` by that of `A`'s base (the two collaborator hypotheses
record that the fraction field of a field is itself and that the integer
ring of the fraction field of a non-field base is that base). -/
theorem pushout_scaling {B : Type} (ops : PadicOps B) (A : TateAlgebra_generic B)
    (R : B) (hA : A.log_radii.length = A.names.length)
    (hf : ops.isField (A.pushBase ops R) = true →
      ops.fractionField (A.pushBase ops R) = A.pushBase ops R)
    (hr : ops.isField (A.pushBase ops R) = false →
      ops.integerRing (ops.fractionField (A.pushBase ops R)) = A.pushBase ops R) :
    A.pushout_ ops (.padic R) = .ok (some (A.pushResult ops R)) ∧
    (A.pushResult ops R).names = A.names ∧
    (A.pushResult ops R).order = A.order ∧
    (A.pushResult ops R).cap = A.pushRatio ops R * A.cap ∧
    (A.pushResult ops R).log_radii = A.log_radii.map (fun r => A.pushRatio ops R * r) ∧
    (A.pushResult ops R).base ops = A.pushBase ops R := by
  refine ⟨pushout_padic_eq ops A R hA, ?_⟩
  by_cases hb : ops.isField (A.pushBase ops R) = true
  · rw [TateAlgebra_generic.pushResult, if_pos hb]
    refine ⟨rfl, rfl, rfl, rfl, ?_⟩
    rw [TateAlgebra_generic.base]
    exact hf hb
  · have hb0 : ops.isField (A.pushBase ops R) = false := by
      cases h : ops.isField (A.pushBase ops R)
      · rfl
      · exact absurd h hb
    rw [TateAlgebra_generic.pushResult, if_neg hb]
    refine ⟨rfl, rfl, rfl, rfl, ?_⟩
    rw [TateAlgebra_generic.integer_ring, TateAlgebra_generic.base]
    exact hr hb0

/-- C2 witness: the pushout of `A7` with the ramified field `R3` doubles the
precision cap and the log radii. -/
theorem pushout_scaling_witness :
    A7.pushout_ demoOps (.padic R3) = .ok (some (A7.pushResult demoOps R3)) ∧
    (A7.pushResult demoOps R3).names = A7.names ∧
    (A7.pushResult demoOps R3).order = A7.order ∧
    (A7.pushResult demoOps R3).cap = A7.pushRatio demoOps R3 * A7.cap ∧
    (A7.pushResult demoOps R3).log_radii =
      A7.log_radii.map (fun r => A7.pushRatio demoOps R3 * r) ∧
    (A7.pushResult demoOps R3).base demoOps = A7.pushBase demoOps R3 :=
  pushout_scaling demoOps A7 R3 rfl (fun _ => rfl) (by decide)

/-- C3 counterexample: `A3` is an integral-subring view, and `R3` is a field
whose pushout with `A3`'s base ring is a field, so `_pushout_` returns the
full algebra (integral flag `false`) although the structure being pushed out
was integral — contradicting "if `this` was an integral-subring view, the
result is also the integral subring". -/
theorem pushout_integral_counterexample :
    A3.integral = true ∧
    pushIntegralFlag (A3.pushout_ demoOps (.padic R3)) = some false := by
  constructor
  · rfl
  · rfl

/-- C3 (amended): the pushout result is the integral-subring view of the
freshly built full algebra exactly when the pushed-out base is a ring rather
than a field; when it is a field the fresh full algebra is returned
directly, regardless of whether the structure being pushed out was an
integral-subring view. -/
theorem pushout_integral_rule {B : Type} (ops : PadicOps B)
    (A : TateAlgebra_generic B) (R : B)
    (hA : A.log_radii.length = A.names.length) :
    A.pushout_ ops (.padic R) =
      .ok (some (if ops.isField (A.pushBase ops R) = true then A.pushFull ops R
        else (A.pushFull ops R).integer_ring)) ∧
    (A.pushFull ops R).integral = false ∧
    ((A.pushFull ops R).integer_ring).integral = true :=
  ⟨pushout_padic_eq ops A R hA, rfl, rfl⟩

/-- C3 witness: the rule evaluated on the concrete integral view `A3`. -/
theorem pushout_integral_rule_witness :
    A3.pushout_ demoOps (.padic R3) =
      .ok (some (if demoOps.isField (A3.pushBase demoOps R3) = true then
        A3.pushFull demoOps R3 else (A3.pushFull demoOps R3).integer_ring)) ∧
    (A3.pushFull demoOps R3).integral = false ∧
    ((A3.pushFull demoOps R3).integer_ring).integral = true :=
  pushout_integral_rule demoOps A3 R3 rfl

/-- C4: once a factory call has interned a structure for a key, any further
call with the same parameters returns exactly the stored instance and leaves
the registry unchanged, and the first call had no side effect beyond
interning that one entry. -/
theorem factory_interning {B : Type} [DecidableEq B] (ops : PadicOps B)
    (reg : Registry B) (base0 : B) (prec : Option Int) (log_radii : RadiiArg)
    (names0 : Option (List String)) (order : OrderArg)
    (A1 : TateAlgebra_generic B) (reg1 : Registry B)
    (h : factoryCall ops reg base0 prec log_radii names0 order = .ok (A1, reg1)) :
    factoryCall ops reg1 base0 prec log_radii names0 order = .ok (A1, reg1) ∧
    (∀ key, create_key ops base0 prec log_radii names0 order = .ok key →
      (reg1 = reg ∧ regLookup reg key = some A1) ∨
      (reg1 = (key, A1) :: reg ∧ A1 = create_object key ∧
        regLookup reg key = none)) := by
  cases hk : create_key ops base0 prec log_radii names0 order with
  | error e =>
    simp only [factoryCall, hk] at h
    exact absurd h (by simp)
  | ok key =>
    simp only [factoryCall, hk] at h ⊢
    cases hl : regLookup reg key with
    | some A =>
      rw [hl] at h
      have hA : A = A1 ∧ reg = reg1 := by
        have := h
        simp only [Except.ok.injEq, Prod.mk.injEq] at this
        exact this
      obtain ⟨rfl, rfl⟩ := hA
      refine ⟨by rw [hl], fun key2 hk2 => ?_⟩
      injection hk2 with e2
      subst e2
      exact Or.inl ⟨rfl, hl⟩
    | none =>
      rw [hl] at h
      have hA : create_object key = A1 ∧ (key, create_object key) :: reg = reg1 := by
        have := h
        simp only [Except.ok.injEq, Prod.mk.injEq] at this
        exact this
      obtain ⟨h1, h2⟩ := hA
      subst h1
      subst h2
      constructor
      · have hfind : regLookup ((key, create_object key) :: reg) key =
            some (create_object key) := by
          rw [regLookup, if_pos rfl]
        rw [hfind]
      · intro key2 hk2
        injection hk2 with e2
        subst e2
        exact Or.inr ⟨rfl, rfl, hl⟩

/-- C4 witness: calling the factory again with the parameters whose key is
already interned returns the stored instance and the unchanged registry. -/
theorem factory_interning_witness :
    factoryCall demoOps [(kD, AD)] ⟨1, true⟩ none (.scalar 0) (some ["x"])
      (.name "degrevlex") = .ok (AD, [(kD, AD)]) :=
  (factory_interning demoOps [] ⟨1, true⟩ none (.scalar 0) (some ["x"])
    (.name "degrevlex") AD [(kD, AD)] rfl).1

/-- C5: the integral twin of a Tate algebra has the integer subring of the
base field as its base ring and keeps the variable names and the term order;
the full algebra's own base ring is the base field itself. -/
theorem integer_ring_twin {B : Type} (ops : PadicOps B) (A : TateAlgebra_generic B) :
    (A.integer_ring).base ops = ops.integerRing A.field ∧
    (A.integer_ring).names = A.names ∧
    (A.integer_ring).order = A.order ∧
    (A.integral = false → A.base ops = A.field) := by
  refine ⟨rfl, rfl, rfl, fun h => ?_⟩
  rw [TateAlgebra_generic.base, h]
  rfl

/-- C5 witness: the twin invariants evaluated on the concrete full algebra
`A7`. -/
theorem integer_ring_twin_witness :
    (A7.integer_ring).base demoOps = demoOps.integerRing A7.field ∧
    (A7.integer_ring).names = A7.names ∧
    (A7.integer_ring).order = A7.order ∧
    A7.base demoOps = A7.field := by
  obtain ⟨h1, h2, h3, h4⟩ := integer_ring_twin demoOps A7
  exact ⟨h1, h2, h3, h4 rfl⟩

/-- C6: in `create_key`, a scalar integer radius is broadcast to all `n`
variables, a radius sequence of the wrong length raises the `ValueError`,
and the entries of a sequence of integral values are coerced elementwise to
their integer values. -/
theorem create_key_radii {B : Type} (ops : PadicOps B) (base0 : B)
    (prec : Option Int) (names : List String) (order : OrderArg) :
    (∀ r : Int,
      keyRadii (create_key ops base0 prec (.scalar (r : ℚ)) (some names) order) =
        some (List.replicate names.length r)) ∧
    (∀ rs : List ℚ, rs.length ≠ names.length →
      create_key ops base0 prec (.seq rs) (some names) order =
        .error (.valueErr "The number of radii does not match the number of variables")) ∧
    (∀ rs : List ℚ, rs.length = names.length → (∀ q ∈ rs, q.den = 1) →
      keyRadii (create_key ops base0 prec (.seq rs) (some names) order) =
        some (rs.map Rat.num)) := by
  refine ⟨fun r => ?_, fun rs hrs => ?_, fun rs hrs hden => ?_⟩
  · simp only [create_key, normalize_names, ZZ_intCast]
    rfl
  · simp only [create_key, normalize_names]
    rw [if_pos hrs]
  · have hne : ¬(rs.length ≠ names.length) := by
      rw [hrs]
      exact fun hc => hc rfl
    simp only [create_key, normalize_names]
    rw [if_neg hne, ZZlist_ok_of_den_one rs hden]
    rfl

/-- C6 witness: broadcast of the scalar radius 3 over two variables, the
length-mismatch error for a one-entry list, and elementwise integer coercion
of a two-entry list. -/
theorem create_key_radii_witness :
    keyRadii (create_key demoOps ⟨1, true⟩ none (.scalar ((3 : Int) : ℚ))
      (some ["x", "y"]) (.name "lex")) = some (List.replicate 2 3) ∧
    create_key demoOps ⟨1, true⟩ none (.seq [(1 : ℚ)]) (some ["x", "y"])
      (.name "lex") =
      .error (.valueErr "The number of radii does not match the number of variables") ∧
    keyRadii (create_key demoOps ⟨1, true⟩ none (.seq [(1 : ℚ), (2 : ℚ)])
      (some ["x", "y"]) (.name "lex")) = some ([(1 : ℚ), (2 : ℚ)].map Rat.num) :=
  ⟨(create_key_radii demoOps ⟨1, true⟩ none ["x", "y"] (.name "lex")).1 3,
   (create_key_radii demoOps ⟨1, true⟩ none ["x", "y"] (.name "lex")).2.1
     [(1 : ℚ)] (by decide),
   (create_key_radii demoOps ⟨1, true⟩ none ["x", "y"] (.name "lex")).2.2
     [(1 : ℚ), (2 : ℚ)] (by decide) (by decide)⟩

/-- C7 counterexample: on the 2-variable algebra `A7`, the index `-1` is
outside `[0, 2)` and yet `gen` raises no error and returns the second
generator — contradicting "fails ... if and only if index is outside
`[0, n)`". -/
theorem gen_range_counterexample :
    A7.gen (-1) = .ok ⟨1, 0⟩ ∧
    ¬(0 ≤ (-1 : Int) ∧ (-1 : Int) < (A7.names.length : Int)) := by
  exact ⟨rfl, by decide⟩

/-- C7 (amended): `gen` returns the `index`-th generator when
`0 ≤ index < n`, and fails with the "generator not defined" error if and
only if `index ≥ n` or `index < -n` (Python's negative indexing applies on
`[-n, -1]`); in particular index 2 on a 2-variable algebra raises the
error. -/
theorem gen_spec {B : Type} (A : TateAlgebra_generic B) (i : Int) :
    (0 ≤ i → i < (A.names.length : Int) → A.gen i = .ok (A.mkGen i.toNat)) ∧
    (A.gen i = .error "generator not defined" ↔
      ((A.names.length : Int) ≤ i ∨ i < -(A.names.length : Int))) := by
  rw [gen_cases]
  constructor
  · intro h0 hi
    rw [if_pos ⟨h0, hi⟩]
  · by_cases h1 : 0 ≤ i ∧ i < (A.names.length : Int)
    · rw [if_pos h1]
      constructor
      · intro hc
        exact absurd hc (by simp)
      · intro hc
        omega
    · rw [if_neg h1]
      by_cases h2 : -(A.names.length : Int) ≤ i ∧ i < 0
      · rw [if_pos h2]
        constructor
        · intro hc
          exact absurd hc (by simp)
        · intro hc
          omega
      · rw [if_neg h2]
        constructor
        · intro _
          omega
        · intro _
          rfl

/-- C7 witness: on the concrete 2-variable algebra, index 0 returns the
first generator and index 2 raises the error. -/
theorem gen_spec_witness :
    A7.gen 0 = .ok (A7.mkGen (0 : Int).toNat) ∧
    (A7.gen 2 = .error "generator not defined" ↔
      ((A7.names.length : Int) ≤ 2 ∨ (2 : Int) < -(A7.names.length : Int))) :=
  ⟨(gen_spec A7 0).1 (by decide) (by decide), (gen_spec A7 2).2⟩

/-- C8: a term monoid accepts a coercion from a scalar ring exactly when its
base ring accepts it directly; it accepts another term monoid exactly when
its owning algebra's coercion test accepts the other monoid's owning
algebra; and it never accepts a coercion from a full Tate algebra. -/
theorem monoid_coerce_rule {B : Type} (ops : PadicOps B) (M : TateTermMonoid B)
    (hcp : ∀ S, ops.coercesParent (M.base_ring ops) S = false) :
    (∀ S : B, M.coerce_map_from ops (.ring S) = ops.coerces (M.base_ring ops) S) ∧
    (∀ N : TateTermMonoid B,
      M.coerce_map_from ops (.monoid N) =
        M.parent_algebra.coerce_map_from ops (.algebra N.parent_algebra)) ∧
    (∀ S : TateAlgebra_generic B, M.coerce_map_from ops (.algebra S) = false) := by
  refine ⟨fun S => rfl, fun N => ?_, fun S => hcp S⟩
  rw [TateTermMonoid.coerce_map_from, hcp N.parent_algebra, Bool.false_or]

/-- C8 witness: the term monoid of `A7` does not accept a coercion from the
full Tate algebra `A1w`. -/
theorem monoid_coerce_rule_witness :
    M7.coerce_map_from demoOps (.algebra A1w) = false :=
  (monoid_coerce_rule demoOps M7 (fun _ => rfl)).2.2 A1w

/-- C9: the pushout of a Tate algebra with an argument that is not a p-adic
ring or field — in particular with another Tate algebra — yields the
"no pushout available" result `none` without raising any error, and the
coercion test always returns a plain boolean. -/
theorem pushout_no_error {B : Type} (ops : PadicOps B) (A : TateAlgebra_generic B) :
    (∀ S : TateAlgebra_generic B, A.pushout_ ops (.tateAlgebra S) = .ok none) ∧
    (A.pushout_ ops .other = .ok none) ∧
    (∀ R : CoerceArg B,
      A.coerce_map_from ops R = true ∨ A.coerce_map_from ops R = false) := by
  refine ⟨fun S => rfl, rfl, fun R => ?_⟩
  cases h : A.coerce_map_from ops R
  · exact Or.inr rfl
  · exact Or.inl rfl

/-- C10: on an algebra with `n ≥ 1` generators, a negative index `i` with
`-n ≤ i ≤ -1` raises no error and returns the `(n + i)`-th generator, and
the "generator not defined" error occurs only when `i ≥ n` or `i < -n`. -/
theorem gen_neg_index {B : Type} (A : TateAlgebra_generic B) (i : Int) :
    (-(A.names.length : Int) ≤ i → i ≤ -1 →
      A.gen i = .ok (A.mkGen ((A.names.length : Int) + i).toNat)) ∧
    (A.gen i = .error "generator not defined" →
      ((A.names.length : Int) ≤ i ∨ i < -(A.names.length : Int))) := by
  rw [gen_cases]
  constructor
  · intro h1 h2
    rw [if_neg (by omega), if_pos ⟨h1, by omega⟩]
  · by_cases h1 : 0 ≤ i ∧ i < (A.names.length : Int)
    · rw [if_pos h1]
      intro hc
      exact absurd hc (by simp)
    · rw [if_neg h1]
      by_cases h2 : -(A.names.length : Int) ≤ i ∧ i < 0
      · rw [if_pos h2]
        intro hc
        exact absurd hc (by simp)
      · rw [if_neg h2]
        intro _
        omega

/-- C10 witness: on the concrete 2-variable algebra, index `-1` returns the
generator of index `2 + (-1) = 1`. -/
theorem gen_neg_index_witness :
    A7.gen (-1) = .ok (A7.mkGen (((A7.names.length : Int) + (-1)).toNat)) :=
  (gen_neg_index A7 (-1)).1 (by decide) (by decide)

end Tate
